import Mathlib

/-!
# Verification of the tele-yt-bot media-fetch core

Shallow embedding of the format-catalog builder, extraction fallback chain,
filename sanitizer, size checks, temp-file cleanup and duplicate-download
bookkeeping of the tele-yt-bot repository (src/index.js and the variant
implementations in src/unnamed), together with proofs and refutations of the
specified properties.

JavaScript-specific behaviour (truthiness, `parseInt`, `String.includes`,
`Array.prototype.sort` stability, object key insertion order) is modelled
explicitly by the helper functions below.
-/

namespace TeleYtBot

/-! ## JavaScript semantics helpers -/

/-- JS truthiness of an optional string: `undefined` and `""` are falsy. -/
def jsTruthyStr : Option String → Option String
  | none => none
  | some s => if s = "" then none else some s

/-- JS truthiness of an optional number: `undefined` and `0` are falsy. -/
def jsTruthyNat : Option Nat → Option Nat
  | none => none
  | some n => if n = 0 then none else some n

/-- Numeric value of a run of decimal digits. -/
def digitsVal (l : List Char) : Nat :=
  l.foldl (fun n c => 10 * n + (c.toNat - '0'.toNat)) 0

/-- JS `parseInt(s, 10) || 0`: skip leading whitespace, read an optional sign
and a run of decimal digits; no digits gives `NaN`, which `|| 0` turns into
`0` (as it does `-0`). -/
def jsParseIntOr0 (s : List Char) : Int :=
  let t := s.dropWhile (fun c => c.isWhitespace)
  match t with
  | '-' :: r =>
      let d := r.takeWhile (fun c => c.isDigit)
      if d.isEmpty then 0 else -(digitsVal d : Int)
  | '+' :: r =>
      let d := r.takeWhile (fun c => c.isDigit)
      if d.isEmpty then 0 else (digitsVal d : Int)
  | r =>
      let d := r.takeWhile (fun c => c.isDigit)
      if d.isEmpty then 0 else (digitsVal d : Int)

/-- JS `haystack.includes(pat)` on character lists. -/
def containsSub (pat : List Char) : List Char → Bool
  | [] => pat.isEmpty
  | c :: rest => pat.isPrefixOf (c :: rest) || containsSub pat rest

/-- Insert `x` into a list after every element whose key is at least `key x`:
the insertion step of a stable descending insertion sort. -/
def insertDescBy (key : α → Int) (x : α) : List α → List α
  | [] => [x]
  | y :: ys => if key x ≤ key y then y :: insertDescBy key x ys else x :: y :: ys

/-- Stable descending sort by an integer key: the behaviour guaranteed for
JS `Array.prototype.sort` with comparator `(a, b) => key b - key a`
(sorted w.r.t. the comparator, stable since ES2019). -/
def sortDescBy (key : α → Int) (l : List α) : List α :=
  l.foldl (fun acc x => insertDescBy key x acc) []

/-- Models `[...new Set(l)]`: deduplicate keeping first occurrences, in order. -/
def jsSetDedupAux [DecidableEq α] (seen : List α) : List α → List α
  | [] => []
  | x :: xs =>
      if x ∈ seen then jsSetDedupAux seen xs
      else x :: jsSetDedupAux (x :: seen) xs

/-- Models `[...new Set(l)]`. -/
def jsSetDedup [DecidableEq α] (l : List α) : List α :=
  jsSetDedupAux [] l

/-! ## Association lists (JS object with string keys, insertion order) -/

/-- Lookup in an association list (`resMap[q]`). -/
def assocLookup (q : String) : List (String × β) → Option β
  | [] => none
  | (q', e) :: rest => if q' = q then some e else assocLookup q rest

/-- Assignment `resMap[q] = e` for a key already present: the value is
replaced in place, key order is unchanged; for an absent key the pair is
appended at the end (JS object insertion order for string keys). -/
def assocSet (q : String) (e : β) : List (String × β) → List (String × β)
  | [] => [(q, e)]
  | (q', e') :: rest =>
      if q' = q then (q, e) :: rest else (q', e') :: assocSet q e rest

/-- Models `Object.keys`, in insertion order. -/
def assocKeys (m : List (String × β)) : List String :=
  m.map Prod.fst

/-- The first element of `l` attaining the maximal key (JS left-to-right
"replace only on strictly greater" accumulation keeps exactly this one). -/
def firstMaxBy (key : α → Int) : List α → Option α
  | [] => none
  | x :: xs =>
      match firstMaxBy key xs with
      | none => some x
      | some y => if key y > key x then some y else some x

/-! ## Data model -/

/-- Which extraction backend produced a descriptor:
`source: 'ytdl'` or `source: 'yt-dlp'` in src/index.js. -/
inductive Source where
  | ytdl
  | ytDlp
deriving DecidableEq, Repr

/-- One raw format as reported by ytdl-core, restricted to the fields read by
`getFormatsInfo` and `sendFormat` in src/index.js.  `contentLength` is a
string in ytdl-core's output (hence the `parseInt` in the source). -/
structure RawFormat where
  container : Option String := none
  hasVideo : Bool := false
  hasAudio : Bool := false
  qualityLabel : Option String := none
  height : Option Nat := none
  itag : Nat := 0
  contentLength : Option String := none
  bitrate : Option Nat := none
deriving DecidableEq, Repr

/-- The part of `ytdl.getInfo`'s result used by src/index.js
(`info.videoDetails.title` and `info.formats`). -/
structure YtdlInfo where
  title : Option String := none
  formats : List RawFormat := []
deriving DecidableEq, Repr

/-- One raw format in yt-dlp's `--dump-single-json` output, restricted to the
fields read by the fallback branch of `getFormatsInfo` in src/index.js.
`tbr` is modelled post-`Math.round`. -/
structure DlpFormat where
  format_id : Option String := none
  format : Option String := none
  vcodec : Option String := none
  acodec : Option String := none
  format_note : Option String := none
  height : Option Nat := none
  tbr : Option Nat := none
  abr : Option Nat := none
  bitrate : Option Nat := none
deriving DecidableEq, Repr

/-- The yt-dlp JSON document (`json.title`, `json.formats`). -/
structure DlpJson where
  title : Option String := none
  formats : Option (List DlpFormat) := none
deriving DecidableEq, Repr

/-- Value stored per label in `resMap` on the primary path of
`getFormatsInfo`: `{ itag, contentLength }` with the length already parsed. -/
structure ResEntry where
  itag : Nat
  contentLength : Int
deriving DecidableEq, Repr

/-- One entry of the `resolutions` list returned by `getFormatsInfo`:
`{ label, itag, source }`. -/
structure ResolutionEntry where
  label : String
  itag : String
  source : Source
deriving DecidableEq, Repr

/-- The `audio` field returned by `getFormatsInfo`: `{ itag, source }`. -/
structure AudioEntry where
  itag : String
  source : Source
deriving DecidableEq, Repr

/-- Result shape of `getFormatsInfo` in src/index.js. -/
structure FormatsInfo where
  title : String
  resolutions : List ResolutionEntry
  audio : Option AudioEntry
deriving DecidableEq, Repr

/-! ## Resolution catalog builder — primary (ytdl-core) path of
`getFormatsInfo` in src/index.js -/

/-- Models `f.qualityLabel || (f.height ? h + "p" : 'unknown')`. -/
def deriveLabel (f : RawFormat) : String :=
  match jsTruthyStr f.qualityLabel with
  | some s => s
  | none =>
      match jsTruthyNat f.height with
      | some h => toString h ++ "p"
      | none => "unknown"

/-- Models `parseInt(f.contentLength || 0, 10) || 0`. -/
def clNum (f : RawFormat) : Int :=
  match jsTruthyStr f.contentLength with
  | none => 0
  | some s => jsParseIntOr0 s.toList

/-- The `resMap` value recorded for a format:
`{ itag: f.itag, contentLength: parseInt(f.contentLength || 0, 10) || 0 }`. -/
def toResEntry (f : RawFormat) : ResEntry :=
  ⟨f.itag, clNum f⟩

/-- One step of the `videoFormats.forEach` loop filling `resMap`:
store the format under its derived label if the label is new, replace the
stored entry only when the new parsed content length is strictly larger. -/
def updateResMap (m : List (String × ResEntry)) (f : RawFormat) :
    List (String × ResEntry) :=
  let q := deriveLabel f
  match assocLookup q m with
  | none => m ++ [(q, toResEntry f)]
  | some e => if clNum f > e.contentLength then assocSet q (toResEntry f) m else m

/-- Models `formats = info.formats.filter(f => f.container && (f.hasVideo || f.hasAudio))`. -/
def primaryFormats (info : YtdlInfo) : List RawFormat :=
  info.formats.filter (fun f => ((jsTruthyStr f.container).isSome && (f.hasVideo || f.hasAudio)))

/-- Models `videoFormats = formats.filter(f => f.hasVideo && f.hasAudio)`. -/
def primaryVideoFormats (info : YtdlInfo) : List RawFormat :=
  (primaryFormats info).filter (fun f => f.hasVideo && f.hasAudio)

/-- The filled `resMap`, an insertion-ordered association list. -/
def primaryResMap (info : YtdlInfo) : List (String × ResEntry) :=
  (primaryVideoFormats info).foldl updateResMap []

/-- Models `Object.keys(resMap)`. -/
def primaryLabels (info : YtdlInfo) : List String :=
  assocKeys (primaryResMap info)

/-- Sort key of the label comparator `(a, b) => (parseInt(b)||0) - (parseInt(a)||0)`. -/
def labelKey (s : String) : Int :=
  jsParseIntOr0 s.toList

/-- Models `Object.keys(resMap).sort(...)`: descending by `parseInt(label) || 0`, stable. -/
def primarySortedLabels (info : YtdlInfo) : List String :=
  sortDescBy labelKey (primaryLabels info)

/-- Models `.map(label => ({ label, itag: String(resMap[label].itag), source: 'ytdl' }))`.
The lookup cannot fail for labels drawn from the map; a missing label yields
itag `"undefined"` (JS `String(undefined)`). -/
def primaryResolutions (info : YtdlInfo) : List ResolutionEntry :=
  (primarySortedLabels info).map (fun label =>
    { label := label
      itag := match assocLookup label (primaryResMap info) with
              | some e => toString e.itag
              | none => "undefined"
      source := Source.ytdl })

/-- Models `audioFormats = formats.filter(f => f.hasAudio && !f.hasVideo)`. -/
def primaryAudioFormats (info : YtdlInfo) : List RawFormat :=
  (primaryFormats info).filter (fun f => f.hasAudio && !f.hasVideo)

/-- Sort key of the audio comparator `(a, b) => (b.bitrate || 0) - (a.bitrate || 0)`. -/
def audioKey (f : RawFormat) : Int :=
  (f.bitrate.getD 0 : Nat)

/-- Models `audioFormats.sort((a, b) => (b.bitrate || 0) - (a.bitrate || 0))[0]`. -/
def primaryBestAudio (info : YtdlInfo) : Option RawFormat :=
  (sortDescBy audioKey (primaryAudioFormats info)).head?

/-- The catalog built on the primary (ytdl-core) path. -/
def buildPrimaryInfo (info : YtdlInfo) : FormatsInfo :=
  { title := (jsTruthyStr info.title).getD "video"
    resolutions := primaryResolutions info
    audio := (primaryBestAudio info).map (fun f => ⟨toString f.itag, Source.ytdl⟩) }

/-! ## Resolution catalog builder — fallback (yt-dlp) path -/

/-- Models `f.format_note || (f.height ? h + "p" : (f.tbr ? tbr + "kbps" : 'unknown'))`. -/
def dlpDeriveLabel (f : DlpFormat) : String :=
  match jsTruthyStr f.format_note with
  | some s => s
  | none =>
      match jsTruthyNat f.height with
      | some h => toString h ++ "p"
      | none =>
          match jsTruthyNat f.tbr with
          | some t => toString t ++ "kbps"
          | none => "unknown"

/-- Models `String(f.format_id || f.format)` (both falsy gives `"undefined"`). -/
def dlpItag (f : DlpFormat) : String :=
  match jsTruthyStr f.format_id with
  | some s => s
  | none => (jsTruthyStr f.format).getD "undefined"

/-- Models `formats = json.formats.filter(f => (f.format_id || f.format) && (f.vcodec !== 'none' || f.acodec !== 'none'))`.
Note that in JS an absent `vcodec` satisfies `f.vcodec !== 'none'`. -/
def dlpFormats (fs : List DlpFormat) : List DlpFormat :=
  fs.filter (fun f =>
    ((jsTruthyStr f.format_id).isSome || (jsTruthyStr f.format).isSome) &&
    (f.vcodec ≠ some "none" || f.acodec ≠ some "none"))

/-- Models `videoFormats = formats.filter(f => f.vcodec !== 'none' && f.acodec !== 'none')`. -/
def dlpVideoFormats (fs : List DlpFormat) : List DlpFormat :=
  (dlpFormats fs).filter (fun f => f.vcodec ≠ some "none" && f.acodec ≠ some "none")

/-- Models `videoFormats.forEach(f => { if (!resMap[q]) resMap[q] = f; })`: first
format per label wins on the fallback path. -/
def updateDlpResMap (m : List (String × DlpFormat)) (f : DlpFormat) :
    List (String × DlpFormat) :=
  match assocLookup (dlpDeriveLabel f) m with
  | none => m ++ [(dlpDeriveLabel f, f)]
  | some _ => m

/-- The fallback `resMap`. -/
def dlpResMap (fs : List DlpFormat) : List (String × DlpFormat) :=
  (dlpVideoFormats fs).foldl updateDlpResMap []

/-- Models `audioFormats = formats.filter(f => (f.vcodec === 'none' || f.vcodec === 'none') && f.acodec !== 'none')`
(the duplicated disjunct is in the source). -/
def dlpAudioFormats (fs : List DlpFormat) : List DlpFormat :=
  (dlpFormats fs).filter (fun f =>
    (f.vcodec = some "none" || f.vcodec = some "none") && f.acodec ≠ some "none")

/-- Sort key of `(a, b) => (b.abr || b.bitrate || 0) - (a.abr || a.bitrate || 0)`. -/
def dlpAudioKey (f : DlpFormat) : Int :=
  match jsTruthyNat f.abr with
  | some x => (x : Int)
  | none => ((jsTruthyNat f.bitrate).getD 0 : Nat)

/-- The fallback catalog for a parsed yt-dlp JSON document with formats. -/
def buildFallbackInfo (json : DlpJson) (fs : List DlpFormat) : FormatsInfo :=
  { title := (jsTruthyStr json.title).getD "video"
    resolutions :=
      (sortDescBy labelKey (assocKeys (dlpResMap fs))).map (fun label =>
        { label := label
          itag := match assocLookup label (dlpResMap fs) with
                  | some f => dlpItag f
                  | none => "undefined"
          source := Source.ytDlp })
    audio := ((sortDescBy dlpAudioKey (dlpAudioFormats fs)).head?).map
      (fun f => ⟨dlpItag f, Source.ytDlp⟩) }

/-- The fallback branch after `ytdlExec` resolves: `if (!json || !json.formats)
throw new Error('yt-dlp returned no formats')`, otherwise build the catalog. -/
def buildFallback (j : Option DlpJson) : Except String FormatsInfo :=
  match j with
  | none => .error "yt-dlp returned no formats"
  | some json =>
      match json.formats with
      | none => .error "yt-dlp returned no formats"
      | some fs => .ok (buildFallbackInfo json fs)

/-! ## Extraction strategy chain (`getFormatsInfo` error handling) -/

/-- The recoverable-failure classifier:
`msg.includes('Status code: 410') || msg.toLowerCase().includes('extractor') || msg.toLowerCase().includes('signature')`. -/
def isRecoverable (msg : String) : Bool :=
  containsSub "Status code: 410".toList msg.toList ||
  containsSub "extractor".toList (msg.toList.map Char.toLower) ||
  containsSub "signature".toList (msg.toList.map Char.toLower)

/-- Models `getFormatsInfo`, with the two backends supplied as oracle results
(primary = ytdl-core `getInfo`, fallback = `ytdlExec` returning parsed JSON).
The second component counts how many times the fallback backend is invoked.
A failure inside the fallback branch (including the no-formats check) is
caught and the original primary error is rethrown. -/
def getFormatsInfo (primary : Except String YtdlInfo)
    (fallback : Except String (Option DlpJson)) :
    Except String FormatsInfo × Nat :=
  match primary with
  | .ok info => (.ok (buildPrimaryInfo info), 0)
  | .error msg =>
      if isRecoverable msg then
        match fallback with
        | .ok j =>
            match buildFallback j with
            | .ok fi => (.ok fi, 1)
            | .error _ => (.error msg, 1)
        | .error _ => (.error msg, 1)
      else (.error msg, 0)

/-! ## Filename sanitizer (src/index.js and src/unnamed/part_002) -/

/-- The characters removed by the regex `[\\\/:*?"<>|]+`. -/
def reservedChars : List Char :=
  ['\\', '/', ':', '*', '?', '"', '<', '>', '|']

/-- Models `(name || 'file').replace(/[\\\/:*?"<>|]+/g, '').slice(0, 200)`. -/
def sanitizeFilename (name : String) : String :=
  let base := (jsTruthyStr (some name)).getD "file"
  String.mk ((base.toList.filter (fun c => c ∉ reservedChars)).take 200)

/-- A (C0 or DEL) control character. -/
def isControlChar (c : Char) : Bool :=
  c.toNat < 32 || c.toNat = 127

/-! ## Temp-file cleanup (src/index.js lines 19-23)

The filesystem is modelled as the list of existing paths. -/

/-- Models `fs.existsSync(p)`. -/
def existsSync (p : String) (fs : List String) : Bool :=
  p ∈ fs

/-- Models `fs.unlinkSync(p)`: removes the file, throws `ENOENT` when absent. -/
def unlinkSync (p : String) (fs : List String) : Except String (List String) :=
  if existsSync p fs then .ok (fs.filter (fun q => q ≠ p)) else .error "ENOENT"

/-- Models `function cleanup(filePath) { if (fs.existsSync(filePath)) fs.unlinkSync(filePath); }` -/
def cleanup (p : String) (fs : List String) : Except String (List String) :=
  if existsSync p fs then unlinkSync p fs else .ok fs

/-! ## Transfer pipeline -/

/-- Observable steps of one selection execution. -/
inductive TransferEv where
  | fetch
  | transcode
  | sizeCheck (bytes : Nat)
  | deliver
deriving DecidableEq, Repr

/-- Outcome of `sendFormat` (src/index.js, ytdl path). -/
inductive SfOutcome where
  | notAvailable
  | delivered (filename : String)
deriving DecidableEq, Repr

/-- Models `ytdl.chooseFormat(info.formats, { quality: itag })` for a numeric itag:
the format with that itag, if listed. -/
def chooseFormat (formats : List RawFormat) (itag : Nat) : Option RawFormat :=
  formats.find? (fun f => f.itag = itag)

/-- The ytdl-core branch of `sendFormat` (src/index.js lines 505-545).
The audio path streams the itag through ffmpeg into the sink with no size
handling at all; the video path checks only that the format exists and then
hands the raw stream to the sink — neither path measures or bounds size. -/
def sendFormatYtdl (info : YtdlInfo) (itag : Nat) (isAudio : Bool) :
    SfOutcome × List TransferEv :=
  let title := sanitizeFilename ((jsTruthyStr info.title).getD "video")
  if isAudio then
    (.delivered (title ++ ".mp3"), [.fetch, .transcode, .deliver])
  else
    match chooseFormat info.formats itag with
    | none => (.notAvailable, [])
    | some fmt =>
        let ext := (jsTruthyStr fmt.container).getD "mp4"
        (.delivered (title ++ "." ++ ext), [.fetch, .deliver])

/-- Telegram's upload ceiling as used by the buffering variants: 50 MB. -/
def maxFileSize : Nat := 50 * 1024 * 1024

/-- Outcome of `downloadVideo` in src/unnamed/part_001. -/
inductive P1Outcome where
  | notCreated
  | tooLarge
  | uploaded
deriving DecidableEq, Repr

/-- Models `downloadVideo` of src/unnamed/part_001 (lines 285-345), after the yt-dlp
subprocess returns: `dlResult` is the size of the produced file, or `none`
when no file was created.  The size test `stats.size / (1024*1024) > 50` is
exact for doubles (division by a power of two), hence `size > 50*1024*1024`.
An over-ceiling file is deleted and never uploaded; otherwise the file is
uploaded after the size check. -/
def downloadVideoP1 (dlResult : Option Nat) : P1Outcome × List TransferEv :=
  match dlResult with
  | none => (.notCreated, [.fetch])
  | some size =>
      if size > maxFileSize then (.tooLarge, [.fetch, .sizeCheck size])
      else (.uploaded, [.fetch, .sizeCheck size, .deliver])

/-! ## Quality options (src/unnamed/part_001, `getQualityOptions`) -/

/-- Models `getQualityOptions(info)` of src/unnamed/part_001 (lines 107-125):
filter to merged video+audio formats with a truthy height, deduplicate the
heights (`[...new Set(...)]`), sort descending, keep at most 5, render as
labels. -/
def getQualityOptions (formats : List DlpFormat) : List String :=
  let videoFormats := formats.filter (fun f =>
    f.vcodec ≠ some "none" && f.acodec ≠ some "none" && (jsTruthyNat f.height).isSome)
  let heights := jsSetDedup (videoFormats.map (fun f => f.height.getD 0))
  let sorted := sortDescBy (fun h => (h : Int)) heights
  (sorted.take 5).map (fun h => toString h ++ "p")

/-- JS `text.split(sep)` for a one-character separator. -/
def jsSplit (sep : Char) : List Char → List (List Char)
  | [] => [[]]
  | c :: rest =>
      if c = sep then [] :: jsSplit sep rest
      else
        match jsSplit sep rest with
        | [] => [[c]]
        | g :: gs => (c :: g) :: gs

/-! ## Selection handling and duplicate suppression

src/index.js (lines 470-498) parses the full selection payload out of the
callback data on every invocation — no token registry is consulted.
src/unnamed/part_002 (lines 452-460) keeps an `activeDownloads` set of
`userId_url_quality` keys for the duration of one download. -/

/-- Action taken by the `bot.on('callback_query')` handler of src/index.js.
The JSON payload and URL components are carried as the raw encoded strings
(`decodeURIComponent`/`JSON.parse` are irrelevant to the control flow). -/
inductive CbAction where
  | cancelled
  | ignored
  | execute (isAudio : Bool) (payload : String) (url : String)
deriving DecidableEq, Repr

/-- The callback handler of src/index.js: `cancel:` edits the message,
fewer than four `:`-separated parts are ignored, and any well-formed
`dl:<type>:<json>:<url>` data starts an execution — every time it arrives. -/
def handleCallbackData (data : String) : CbAction :=
  if "cancel:".toList.isPrefixOf data.toList then .cancelled
  else
    let parts := jsSplit ':' data.toList
    if parts.length < 4 then .ignored
    else .execute (((parts.get? 1).getD []) = "audio".toList)
      (String.mk ((parts.get? 2).getD [])) (String.mk ((parts.get? 3).getD []))

/-- Models `userId_url_quality`, the `downloadKey` of src/unnamed/part_002. -/
def downloadKey (userId : Nat) (url : String) (quality : String) : String :=
  toString userId ++ "_" ++ url ++ "_" ++ quality

/-- Entry of `downloadVideo` in src/unnamed/part_002: refuse if the key is in
`activeDownloads`, otherwise add it and start downloading. -/
def beginDownload (key : String) (active : List String) : Option (List String) :=
  if key ∈ active then none else some (key :: active)

/-- The `finally` block: `activeDownloads.delete(downloadKey)`. -/
def endDownload (key : String) (active : List String) : List String :=
  active.erase key

/-- One full run of `downloadVideo` in src/unnamed/part_002: returns whether
a download was actually executed, and the set after the `finally` block. -/
def runDownloadOnce (key : String) (active : List String) :
    Bool × List String :=
  match beginDownload key active with
  | none => (false, active)
  | some s => (true, endDownload key s)

/-! ## Lemmas about the stable descending sort -/

/-- The ordering enforced by the comparator `(a, b) => key b - key a`. -/
def descBy (key : α → Int) (a b : α) : Prop := key b ≤ key a

theorem insertDescBy_perm (key : α → Int) (x : α) (l : List α) :
    List.Perm (insertDescBy key x l) (x :: l) := by
  induction l with
  | nil => simp [insertDescBy]
  | cons y ys ih =>
      by_cases h : key x ≤ key y
      · simp only [insertDescBy, if_pos h]
        exact (ih.cons y).trans (List.Perm.swap x y ys)
      · simp [insertDescBy, if_neg h]

theorem pairwise_insertDescBy (key : α → Int) (x : α) {l : List α}
    (hl : l.Pairwise (descBy key)) :
    (insertDescBy key x l).Pairwise (descBy key) := by
  induction l with
  | nil => simp [insertDescBy, descBy]
  | cons y ys ih =>
      rcases List.pairwise_cons.mp hl with ⟨hy, hys⟩
      by_cases h : key x ≤ key y
      · simp only [insertDescBy, if_pos h]
        refine List.pairwise_cons.mpr ⟨?_, ih hys⟩
        intro b hb
        have hb' := (insertDescBy_perm key x ys).mem_iff.mp hb
        rcases List.mem_cons.mp hb' with hb' | hb'
        · subst hb'; exact h
        · exact hy b hb'
      · push_neg at h
        simp only [insertDescBy, if_neg (not_le.mpr h)]
        refine List.pairwise_cons.mpr ⟨?_, hl⟩
        intro b hb
        rcases List.mem_cons.mp hb with hb | hb
        · subst hb; exact le_of_lt h
        · exact le_trans (hy b hb) (le_of_lt h)

theorem sortDescBy_aux_pairwise (key : α → Int) :
    ∀ (l acc : List α), acc.Pairwise (descBy key) →
      (l.foldl (fun acc x => insertDescBy key x acc) acc).Pairwise (descBy key) := by
  intro l
  induction l with
  | nil => intro acc h; simpa using h
  | cons x xs ih =>
      intro acc h
      exact ih (insertDescBy key x acc) (pairwise_insertDescBy key x h)

/-- The sorted-by-the-comparator half of the JS `Array.prototype.sort` contract. -/
theorem sortDescBy_pairwise (key : α → Int) (l : List α) :
    (sortDescBy key l).Pairwise (descBy key) :=
  sortDescBy_aux_pairwise key l [] List.Pairwise.nil

theorem sortDescBy_aux_perm (key : α → Int) :
    ∀ (l acc : List α),
      List.Perm (l.foldl (fun acc x => insertDescBy key x acc) acc) (l ++ acc) := by
  intro l
  induction l with
  | nil => intro acc; simp
  | cons x xs ih =>
      intro acc
      have h1 : List.Perm (xs.foldl (fun acc x => insertDescBy key x acc)
          (insertDescBy key x acc)) (xs ++ insertDescBy key x acc) :=
        ih (insertDescBy key x acc)
      have h2 : List.Perm (xs ++ insertDescBy key x acc) (xs ++ x :: acc) :=
        List.Perm.append_left xs (insertDescBy_perm key x acc)
      exact (h1.trans h2).trans List.perm_middle

theorem sortDescBy_perm (key : α → Int) (l : List α) :
    List.Perm (sortDescBy key l) l := by
  simpa using sortDescBy_aux_perm key l []

theorem filter_insertDescBy (key : α → Int) (k : Int) (x : α) {l : List α}
    (hl : l.Pairwise (descBy key)) :
    (insertDescBy key x l).filter (fun a => decide (key a = k)) =
      if key x = k then l.filter (fun a => decide (key a = k)) ++ [x]
      else l.filter (fun a => decide (key a = k)) := by
  induction l with
  | nil =>
      simp only [insertDescBy, List.filter]
      by_cases h : key x = k <;> simp [h]
  | cons y ys ih =>
      rcases List.pairwise_cons.mp hl with ⟨hy, hys⟩
      by_cases h : key x ≤ key y
      · simp only [insertDescBy, if_pos h, List.filter_cons, ih hys]
        by_cases hx : key x = k <;> by_cases hyk : key y = k <;>
          simp [hx, hyk]
      · push_neg at h
        simp only [insertDescBy, if_neg (not_le.mpr h)]
        by_cases hx : key x = k
        · have hnil : (y :: ys).filter (fun a => decide (key a = k)) = [] := by
            refine List.filter_eq_nil_iff.mpr ?_
            intro b hb
            have hble : key b ≤ key y := by
              rcases List.mem_cons.mp hb with hb | hb
              · subst hb; exact le_refl _
              · exact hy b hb
            have : key b < k := lt_of_le_of_lt hble (hx ▸ h)
            simp [ne_of_lt this]
          simp [List.filter_cons, hx, hnil]
        · simp [List.filter_cons, hx]

theorem sortDescBy_aux_filter (key : α → Int) (k : Int) :
    ∀ (l acc : List α), acc.Pairwise (descBy key) →
      (l.foldl (fun acc x => insertDescBy key x acc) acc).filter
          (fun a => decide (key a = k)) =
        acc.filter (fun a => decide (key a = k)) ++
          l.filter (fun a => decide (key a = k)) := by
  intro l
  induction l with
  | nil => intro acc h; simp
  | cons x xs ih =>
      intro acc h
      have step := ih (insertDescBy key x acc) (pairwise_insertDescBy key x h)
      calc ((x :: xs).foldl (fun acc x => insertDescBy key x acc) acc).filter
              (fun a => decide (key a = k))
          = (insertDescBy key x acc).filter (fun a => decide (key a = k)) ++
              xs.filter (fun a => decide (key a = k)) := step
        _ = acc.filter (fun a => decide (key a = k)) ++
              (x :: xs).filter (fun a => decide (key a = k)) := by
            rw [filter_insertDescBy key k x h, List.filter_cons]
            by_cases hx : key x = k <;> simp [hx]

/-- The stability half of the JS `Array.prototype.sort` contract: elements of
equal key keep their relative order. -/
theorem sortDescBy_filter (key : α → Int) (l : List α) (k : Int) :
    (sortDescBy key l).filter (fun a => decide (key a = k)) =
      l.filter (fun a => decide (key a = k)) := by
  simpa using sortDescBy_aux_filter key k l [] List.Pairwise.nil

/-- What the JS sort contract (consistent comparator + stability, ES2019)
guarantees about an output list. -/
def IsStableDescSortBy (key : α → Int) (l ls : List α) : Prop :=
  ls.Pairwise (descBy key) ∧
    ∀ k, ls.filter (fun a => decide (key a = k)) =
      l.filter (fun a => decide (key a = k))

theorem sortDescBy_isStable (key : α → Int) (l : List α) :
    IsStableDescSortBy key l (sortDescBy key l) :=
  ⟨sortDescBy_pairwise key l, sortDescBy_filter key l⟩

/-- Any two lists sorted by the comparator that both preserve the relative
order of equal-key elements of the same input are equal: the JS sort contract
determines the output uniquely. -/
theorem stable_sort_unique (key : α → Int) :
    ∀ l₁ l₂ : List α, l₁.Pairwise (descBy key) → l₂.Pairwise (descBy key) →
      (∀ k, l₁.filter (fun a => decide (key a = k)) =
        l₂.filter (fun a => decide (key a = k))) →
      l₁ = l₂ := by
  intro l₁
  induction l₁ with
  | nil =>
      intro l₂ _ _ hf
      cases l₂ with
      | nil => rfl
      | cons b t₂ =>
          have h := hf (key b)
          simp [List.filter_cons] at h
  | cons a t₁ ih =>
      intro l₂ h₁ h₂ hf
      cases l₂ with
      | nil =>
          have h := hf (key a)
          simp [List.filter_cons] at h
      | cons b t₂ =>
          rcases List.pairwise_cons.mp h₁ with ⟨ha, ht₁⟩
          rcases List.pairwise_cons.mp h₂ with ⟨hb, ht₂⟩
          have hab : key a ≤ key b := by
            have hmem : a ∈ (a :: t₁).filter (fun x => decide (key x = key a)) := by
              simp [List.filter_cons]
            rw [hf (key a)] at hmem
            have : a ∈ b :: t₂ := List.mem_of_mem_filter hmem
            rcases List.mem_cons.mp this with h | h
            · subst h; exact le_refl _
            · exact hb a h
          have hba : key b ≤ key a := by
            have hmem : b ∈ (b :: t₂).filter (fun x => decide (key x = key b)) := by
              simp [List.filter_cons]
            rw [← hf (key b)] at hmem
            have : b ∈ a :: t₁ := List.mem_of_mem_filter hmem
            rcases List.mem_cons.mp this with h | h
            · subst h; exact le_refl _
            · exact ha b h
          have hk : key a = key b := le_antisymm hab hba
          have hhead : a :: t₁.filter (fun x => decide (key x = key a)) =
              b :: t₂.filter (fun x => decide (key x = key a)) := by
            simpa [List.filter_cons, hk.symm] using hf (key a)
          have hae : a = b := (List.cons.inj hhead).1
          have htf : ∀ k, t₁.filter (fun x => decide (key x = k)) =
              t₂.filter (fun x => decide (key x = k)) := by
            intro k
            by_cases hka : key a = k
            · subst hka
              exact (List.cons.inj hhead).2
            · have hkb : ¬ key b = k := by rw [← hk]; exact hka
              simpa [List.filter_cons, hka, hkb] using hf k
          rw [hae, ih t₂ ht₁ ht₂ htf]

/-! ## Lemmas about association lists and the `resMap` fold -/

theorem assocLookup_cons {β} (q p1 : String) (p2 : β) (rest : List (String × β)) :
    assocLookup q ((p1, p2) :: rest) =
      if p1 = q then some p2 else assocLookup q rest := rfl

theorem assocSet_cons {β} (q p1 : String) (e p2 : β) (rest : List (String × β)) :
    assocSet q e ((p1, p2) :: rest) =
      if p1 = q then (q, e) :: rest else (p1, p2) :: assocSet q e rest := rfl

theorem assocLookup_append_of_ne {β} (q q' : String) (e : β)
    (m : List (String × β)) (h : q' ≠ q) :
    assocLookup q (m ++ [(q', e)]) = assocLookup q m := by
  induction m with
  | nil => simp [assocLookup, h]
  | cons p rest ih =>
      cases p with
      | mk p1 p2 =>
          rw [List.cons_append, assocLookup_cons, assocLookup_cons, ih]

theorem assocLookup_append_self {β} (q : String) (e : β)
    (m : List (String × β)) (h : assocLookup q m = none) :
    assocLookup q (m ++ [(q, e)]) = some e := by
  induction m with
  | nil => simp [assocLookup]
  | cons p rest ih =>
      cases p with
      | mk p1 p2 =>
          rw [assocLookup_cons] at h
          by_cases hp : p1 = q
          · rw [if_pos hp] at h; exact (Option.some_ne_none p2 h).elim
          · rw [if_neg hp] at h
            rw [List.cons_append, assocLookup_cons, if_neg hp]
            exact ih h

theorem assocLookup_assocSet_self {β} (q : String) (e : β)
    (m : List (String × β)) :
    assocLookup q (assocSet q e m) = some e := by
  induction m with
  | nil => simp [assocSet, assocLookup]
  | cons p rest ih =>
      cases p with
      | mk p1 p2 =>
          rw [assocSet_cons]
          by_cases hp : p1 = q
          · rw [if_pos hp, assocLookup_cons, if_pos rfl]
          · rw [if_neg hp, assocLookup_cons, if_neg hp]
            exact ih

theorem assocLookup_assocSet_of_ne {β} (q q' : String) (e : β)
    (m : List (String × β)) (h : q' ≠ q) :
    assocLookup q (assocSet q' e m) = assocLookup q m := by
  induction m with
  | nil => simp [assocSet, assocLookup, h]
  | cons p rest ih =>
      cases p with
      | mk p1 p2 =>
          rw [assocSet_cons]
          by_cases hp : p1 = q'
          · rw [if_pos hp, assocLookup_cons, if_neg h, assocLookup_cons,
              if_neg (hp ▸ h)]
          · rw [if_neg hp, assocLookup_cons, assocLookup_cons, ih]

theorem assocLookup_eq_none_iff {β} (q : String) (m : List (String × β)) :
    assocLookup q m = none ↔ q ∉ assocKeys m := by
  induction m with
  | nil => simp [assocLookup, assocKeys]
  | cons p rest ih =>
      cases p with
      | mk p1 p2 =>
          rw [assocLookup_cons]
          by_cases hp : p1 = q
          · subst hp
            simp [assocKeys]
          · rw [if_neg hp, ih]
            simp only [assocKeys, List.map_cons, List.mem_cons]
            constructor
            · intro hn hc
              rcases hc with hc | hc
              · exact hp hc.symm
              · exact hn hc
            · intro hn hc
              exact hn (Or.inr hc)

theorem assocKeys_assocSet_of_mem {β} (q : String) (e : β) :
    ∀ m : List (String × β), ¬ assocLookup q m = none →
      assocKeys (assocSet q e m) = assocKeys m := by
  intro m
  induction m with
  | nil => intro h; exact (h rfl).elim
  | cons p rest ih =>
      intro h
      cases p with
      | mk p1 p2 =>
          rw [assocLookup_cons] at h
          rw [assocSet_cons]
          by_cases hp : p1 = q
          · rw [if_pos hp]
            simp [assocKeys, hp]
          · rw [if_neg hp] at h
            rw [if_neg hp]
            simp only [assocKeys, List.map_cons]
            rw [show List.map Prod.fst (assocSet q e rest) = assocKeys (assocSet q e rest) from rfl,
              ih h]
            rfl

/-- The `resMap` keys stay duplicate-free under one `forEach` step. -/
theorem assocKeys_updateResMap_nodup (m : List (String × ResEntry))
    (f : RawFormat) (h : (assocKeys m).Nodup) :
    (assocKeys (updateResMap m f)).Nodup := by
  cases hl : assocLookup (deriveLabel f) m with
  | none =>
      have hm : updateResMap m f = m ++ [(deriveLabel f, toResEntry f)] := by
        simp only [updateResMap, hl]
      rw [hm]
      simp only [assocKeys, List.map_append, List.map_cons, List.map_nil]
      rw [List.nodup_append]
      refine ⟨h, List.nodup_singleton _, ?_⟩
      intro a ha hb
      have : a = deriveLabel f := by simpa using hb
      subst this
      exact (assocLookup_eq_none_iff _ m).mp hl ha
  | some e =>
      by_cases hgt : clNum f > e.contentLength
      · have hm : updateResMap m f = assocSet (deriveLabel f) (toResEntry f) m := by
          simp only [updateResMap, hl, if_pos hgt]
        rw [hm, assocKeys_assocSet_of_mem _ _ m (by simp [hl])]
        exact h
      · have hm : updateResMap m f = m := by
          simp only [updateResMap, hl, if_neg hgt]
        rw [hm]
        exact h

theorem nodup_assocKeys_primaryResMap (info : YtdlInfo) :
    (assocKeys (primaryResMap info)).Nodup := by
  unfold primaryResMap
  generalize primaryVideoFormats info = fs
  have main : ∀ (fs : List RawFormat) (m : List (String × ResEntry)),
      (assocKeys m).Nodup → (assocKeys (fs.foldl updateResMap m)).Nodup := by
    intro fs
    induction fs with
    | nil => intro m h; simpa using h
    | cons f rest ih =>
        intro m h
        exact ih (updateResMap m f) (assocKeys_updateResMap_nodup m f h)
  exact main fs [] (by simp [assocKeys])

/-- Merging one more candidate into the retained entry of a label group:
keep the new one only when its parsed length is strictly larger. -/
def mergeEntry (e : ResEntry) : Option RawFormat → ResEntry
  | none => e
  | some y => if clNum y > e.contentLength then toResEntry y else e

theorem firstMaxBy_cons_map (f : RawFormat) (t : List RawFormat) :
    (firstMaxBy clNum (f :: t)).map toResEntry =
      some (mergeEntry (toResEntry f) (firstMaxBy clNum t)) := by
  cases h : firstMaxBy clNum t with
  | none => simp [firstMaxBy, h, mergeEntry]
  | some y =>
      simp only [firstMaxBy, h, mergeEntry, toResEntry]
      by_cases hc : clNum y > clNum f <;> simp [hc, toResEntry]

theorem mergeEntry_cons (e : ResEntry) (f : RawFormat) (t : List RawFormat) :
    mergeEntry (mergeEntry e (some f)) (firstMaxBy clNum t) =
      mergeEntry e (firstMaxBy clNum (f :: t)) := by
  cases h : firstMaxBy clNum t with
  | none => simp [firstMaxBy, h, mergeEntry]
  | some y =>
      have hr : firstMaxBy clNum (f :: t) =
          if clNum y > clNum f then some y else some f := by
        simp [firstMaxBy, h]
      rw [hr]
      by_cases h1 : clNum f > e.contentLength
      · have hE : mergeEntry e (some f) = toResEntry f := by
          simp [mergeEntry, h1]
        rw [hE]
        by_cases h2 : clNum y > clNum f
        · rw [if_pos h2]
          have hy1 : clNum y > (toResEntry f).contentLength := by
            simpa [toResEntry] using h2
          have hy2 : clNum y > e.contentLength := gt_trans h2 h1
          simp [mergeEntry, hy1, hy2]
        · rw [if_neg h2]
          have hy1 : ¬ clNum y > (toResEntry f).contentLength := by
            simpa [toResEntry] using h2
          simp [mergeEntry, hy1, h1]
      · have hE : mergeEntry e (some f) = e := by
          simp [mergeEntry, h1]
        rw [hE]
        by_cases h2 : clNum y > clNum f
        · rw [if_pos h2]
        · rw [if_neg h2]
          have hy : ¬ clNum y > e.contentLength := by omega
          simp [mergeEntry, hy, h1]

/-- Value of the filled `resMap` at any label `q`: the first format of the
`q`-labelled group attaining the maximal parsed content length, if the group
is nonempty. -/
theorem assocLookup_foldl_updateResMap :
    ∀ (fs : List RawFormat) (m : List (String × ResEntry)) (q : String),
      assocLookup q (fs.foldl updateResMap m) =
        match assocLookup q m with
        | none =>
            (firstMaxBy clNum
              (fs.filter (fun f => decide (deriveLabel f = q)))).map toResEntry
        | some e =>
            some (mergeEntry e
              (firstMaxBy clNum (fs.filter (fun f => decide (deriveLabel f = q))))) := by
  intro fs
  induction fs with
  | nil =>
      intro m q
      cases h : assocLookup q m <;> simp [h, mergeEntry, firstMaxBy]
  | cons f rest ih =>
      intro m q
      have step : (f :: rest).foldl updateResMap m =
          rest.foldl updateResMap (updateResMap m f) := rfl
      rw [step, ih (updateResMap m f) q]
      by_cases hq : deriveLabel f = q
      · -- the new format belongs to the group of `q`
        subst hq
        rw [List.filter_cons_of_pos (by simp)]
        cases hl : assocLookup (deriveLabel f) m with
        | none =>
            have hl' : assocLookup (deriveLabel f) (updateResMap m f) =
                some (toResEntry f) := by
              simp only [updateResMap, hl]
              exact assocLookup_append_self _ _ m hl
            simp only [hl', hl]
            exact (firstMaxBy_cons_map f _).symm
        | some e =>
            have hl' : assocLookup (deriveLabel f) (updateResMap m f) =
                some (mergeEntry e (some f)) := by
              simp only [updateResMap, hl]
              by_cases hgt : clNum f > e.contentLength
              · rw [if_pos hgt]
                rw [assocLookup_assocSet_self]
                simp [mergeEntry, hgt]
              · rw [if_neg hgt, hl]
                simp [mergeEntry, hgt]
            simp only [hl', hl]
            exact congrArg some (mergeEntry_cons e f _)
      · -- the new format does not touch the group of `q`
        have hl' : assocLookup q (updateResMap m f) = assocLookup q m := by
          cases hl : assocLookup (deriveLabel f) m with
          | none =>
              have hm : updateResMap m f = m ++ [(deriveLabel f, toResEntry f)] := by
                simp only [updateResMap, hl]
              rw [hm]
              exact assocLookup_append_of_ne q _ _ m hq
          | some e =>
              by_cases hgt : clNum f > e.contentLength
              · have hm : updateResMap m f =
                    assocSet (deriveLabel f) (toResEntry f) m := by
                  simp only [updateResMap, hl, if_pos hgt]
                rw [hm]
                exact assocLookup_assocSet_of_ne q _ _ m hq
              · have hm : updateResMap m f = m := by
                  simp only [updateResMap, hl, if_neg hgt]
                rw [hm]
        rw [hl', List.filter_cons_of_neg (by simp [hq])]

theorem assocLookup_primaryResMap (info : YtdlInfo) (q : String) :
    assocLookup q (primaryResMap info) =
      (firstMaxBy clNum
        ((primaryVideoFormats info).filter (fun f => decide (deriveLabel f = q)))).map
        toResEntry := by
  have h := assocLookup_foldl_updateResMap (primaryVideoFormats info) [] q
  simpa [assocLookup, primaryResMap] using h

/-- Models `firstMaxBy` really picks the first element attaining the maximum key. -/
theorem firstMaxBy_spec (key : α → Int) :
    ∀ l : List α, l ≠ [] →
      ∃ l₁ x l₂, l = l₁ ++ x :: l₂ ∧ firstMaxBy key l = some x ∧
        (∀ g ∈ l, key g ≤ key x) ∧ (∀ g ∈ l₁, key g < key x) := by
  intro l
  induction l with
  | nil => intro h; exact (h rfl).elim
  | cons a t ih =>
      intro _
      cases t with
      | nil =>
          exact ⟨[], a, [], rfl, rfl, by simp, by simp⟩
      | cons c t' =>
          rcases ih (by simp) with ⟨t₁, y, t₂, ht, hfy, hle, hlt⟩
          have heq : firstMaxBy key (a :: c :: t') =
              match firstMaxBy key (c :: t') with
              | none => some a
              | some z => if key z > key a then some z else some a := rfl
          by_cases hgt : key y > key a
          · refine ⟨a :: t₁, y, t₂, by rw [ht, List.cons_append], ?_, ?_, ?_⟩
            · rw [heq, hfy]
              simp [hgt]
            · intro g hg
              rcases List.mem_cons.mp hg with hg | hg
              · subst hg; exact le_of_lt hgt
              · exact hle g hg
            · intro g hg
              rcases List.mem_cons.mp hg with hg | hg
              · subst hg; exact hgt
              · exact hlt g hg
          · refine ⟨[], a, c :: t', rfl, ?_, ?_, by simp⟩
            · rw [heq, hfy]
              simp [hgt]
            · intro g hg
              rcases List.mem_cons.mp hg with hg | hg
              · subst hg; exact le_refl _
              · exact le_trans (hle g hg) (not_lt.mp hgt)

/-! ## The part_002 variant of the catalog builder (src/unnamed/part_002,
lines 753-779)

Its `formats`/`videoFormats` filters and label derivation coincide
line-for-line with the primary path of src/index.js (`primaryFormats`,
`primaryVideoFormats`, `deriveLabel`); only the tie-break differs: it stores
the whole format and replaces via `resMap[q].contentLength < f.contentLength`
on the RAW fields — ytdl-core reports `contentLength` as a string, so JS `<`
compares lexicographically, and any comparison against an absent field is
false. -/

/-- JS `a < b` for two strings: lexicographic by code units. -/
def jsStrLt : List Char → List Char → Bool
  | [], [] => false
  | [], _ :: _ => true
  | _ :: _, [] => false
  | a :: as, b :: bs =>
      if a.toNat < b.toNat then true
      else if b.toNat < a.toNat then false
      else jsStrLt as bs

/-- JS relational `<` on the raw `contentLength` fields: lexicographic when
both are strings, false when either is `undefined` (NaN comparison). -/
def jsLtContentLength : Option String → Option String → Bool
  | some a, some b => jsStrLt a.toList b.toList
  | _, _ => false

/-- One step of part_002's `videoFormats.forEach`: store the format if its
label is absent, else replace iff
`resMap[q].contentLength < f.contentLength` (JS `<` on the raw fields). -/
def updateResMapP2 (m : List (String × RawFormat)) (f : RawFormat) :
    List (String × RawFormat) :=
  match assocLookup (deriveLabel f) m with
  | none => m ++ [(deriveLabel f, f)]
  | some e =>
      if jsLtContentLength e.contentLength f.contentLength then
        assocSet (deriveLabel f) f m
      else m

/-- The filled part_002 `resMap`. -/
def p2ResMap (info : YtdlInfo) : List (String × RawFormat) :=
  (primaryVideoFormats info).foldl updateResMapP2 []

/-- Models `Object.keys(resMap)` in the part_002 variant. -/
def p2Labels (info : YtdlInfo) : List String :=
  assocKeys (p2ResMap info)

/-- The sorted label sequence of the part_002 variant. -/
def p2SortedLabels (info : YtdlInfo) : List String :=
  sortDescBy labelKey (p2Labels info)

/-- The binary retention rule of part_002: keep the stored format unless its
raw `contentLength` compares JS-`<` the newcomer's. -/
def p2Keep (e f : RawFormat) : RawFormat :=
  if jsLtContentLength e.contentLength f.contentLength then f else e

theorem assocKeys_updateResMapP2_nodup (m : List (String × RawFormat))
    (f : RawFormat) (h : (assocKeys m).Nodup) :
    (assocKeys (updateResMapP2 m f)).Nodup := by
  cases hl : assocLookup (deriveLabel f) m with
  | none =>
      have hm : updateResMapP2 m f = m ++ [(deriveLabel f, f)] := by
        simp only [updateResMapP2, hl]
      rw [hm]
      simp only [assocKeys, List.map_append, List.map_cons, List.map_nil]
      rw [List.nodup_append]
      refine ⟨h, List.nodup_singleton _, ?_⟩
      intro a ha hb
      have : a = deriveLabel f := by simpa using hb
      subst this
      exact (assocLookup_eq_none_iff _ m).mp hl ha
  | some e =>
      by_cases hlt : jsLtContentLength e.contentLength f.contentLength
      · have hm : updateResMapP2 m f = assocSet (deriveLabel f) f m := by
          simp only [updateResMapP2, hl, if_pos hlt]
        rw [hm, assocKeys_assocSet_of_mem _ _ m (by simp [hl])]
        exact h
      · have hm : updateResMapP2 m f = m := by
          simp only [updateResMapP2, hl, if_neg hlt]
        rw [hm]
        exact h

theorem nodup_assocKeys_p2ResMap (info : YtdlInfo) :
    (assocKeys (p2ResMap info)).Nodup := by
  unfold p2ResMap
  generalize primaryVideoFormats info = fs
  have main : ∀ (fs : List RawFormat) (m : List (String × RawFormat)),
      (assocKeys m).Nodup → (assocKeys (fs.foldl updateResMapP2 m)).Nodup := by
    intro fs
    induction fs with
    | nil => intro m h; simpa using h
    | cons f rest ih =>
        intro m h
        exact ih (updateResMapP2 m f) (assocKeys_updateResMapP2_nodup m f h)
  exact main fs [] (by simp [assocKeys])

/-- Value of the part_002 `resMap` at any label: the left fold of the greedy
JS-`<` retention rule over the label group. -/
theorem assocLookup_foldl_updateResMapP2 :
    ∀ (fs : List RawFormat) (m : List (String × RawFormat)) (q : String),
      assocLookup q (fs.foldl updateResMapP2 m) =
        match assocLookup q m with
        | none =>
            match fs.filter (fun f => decide (deriveLabel f = q)) with
            | [] => none
            | x :: xs => some (xs.foldl p2Keep x)
        | some e =>
            some ((fs.filter (fun f => decide (deriveLabel f = q))).foldl p2Keep e) := by
  intro fs
  induction fs with
  | nil =>
      intro m q
      cases h : assocLookup q m <;> simp [h]
  | cons f rest ih =>
      intro m q
      have step : (f :: rest).foldl updateResMapP2 m =
          rest.foldl updateResMapP2 (updateResMapP2 m f) := rfl
      rw [step, ih (updateResMapP2 m f) q]
      by_cases hq : deriveLabel f = q
      · subst hq
        rw [List.filter_cons_of_pos (by simp)]
        cases hl : assocLookup (deriveLabel f) m with
        | none =>
            have hl' : assocLookup (deriveLabel f) (updateResMapP2 m f) = some f := by
              simp only [updateResMapP2, hl]
              exact assocLookup_append_self _ _ m hl
            simp only [hl', hl]
        | some e =>
            have hl' : assocLookup (deriveLabel f) (updateResMapP2 m f) =
                some (p2Keep e f) := by
              simp only [updateResMapP2, hl]
              by_cases hlt : jsLtContentLength e.contentLength f.contentLength
              · rw [if_pos hlt, assocLookup_assocSet_self]
                simp [p2Keep, hlt]
              · rw [if_neg hlt, hl]
                simp [p2Keep, hlt]
            simp only [hl', hl, List.foldl_cons]
      · have hl' : assocLookup q (updateResMapP2 m f) = assocLookup q m := by
          cases hl : assocLookup (deriveLabel f) m with
          | none =>
              have hm : updateResMapP2 m f = m ++ [(deriveLabel f, f)] := by
                simp only [updateResMapP2, hl]
              rw [hm]
              exact assocLookup_append_of_ne q _ _ m hq
          | some e =>
              by_cases hlt : jsLtContentLength e.contentLength f.contentLength
              · have hm : updateResMapP2 m f = assocSet (deriveLabel f) f m := by
                  simp only [updateResMapP2, hl, if_pos hlt]
                rw [hm]
                exact assocLookup_assocSet_of_ne q _ _ m hq
              · have hm : updateResMapP2 m f = m := by
                  simp only [updateResMapP2, hl, if_neg hlt]
                rw [hm]
        rw [hl', List.filter_cons_of_neg (by simp [hq])]

/-- The greedy retention fold always returns a member of the group. -/
theorem foldl_p2Keep_mem :
    ∀ (xs : List RawFormat) (x : RawFormat), xs.foldl p2Keep x ∈ x :: xs := by
  intro xs
  induction xs with
  | nil => intro x; simp
  | cons f r ih =>
      intro x
      rw [List.foldl_cons]
      rcases List.mem_cons.mp (ih (p2Keep x f)) with h | h
      · rw [h]
        by_cases hlt : jsLtContentLength x.contentLength f.contentLength
        · simp only [p2Keep, if_pos hlt]
          exact List.mem_cons_of_mem x (List.mem_cons_self f r)
        · simp only [p2Keep, if_neg hlt]
          exact List.mem_cons_self x _
      · exact List.mem_cons_of_mem x (List.mem_cons_of_mem f h)

/-- A stored format with no raw `contentLength` is never replaced: every
JS-`<` comparison against `undefined` is false. -/
theorem foldl_p2Keep_of_none (x : RawFormat) (hx : x.contentLength = none) :
    ∀ xs : List RawFormat, xs.foldl p2Keep x = x := by
  intro xs
  induction xs with
  | nil => rfl
  | cons f r ih =>
      rw [List.foldl_cons]
      have hk : p2Keep x f = x := by
        simp [p2Keep, jsLtContentLength, hx]
      rw [hk, ih]

/-! ## Concrete inputs used by the claim theorems -/

/-- A 720p video rendition reporting neither a content length nor a bitrate. -/
def c2Fmt : RawFormat :=
  { container := some "mp4", hasVideo := true, hasAudio := true,
    qualityLabel := some "720p", itag := 22 }

def c2Info : YtdlInfo := { title := some "video", formats := [c2Fmt] }

/-- A 1080p rendition whose reported content length (80,000,000 bytes)
exceeds the 50MB ceiling. -/
def c3Fmt : RawFormat :=
  { container := some "mp4", hasVideo := true, hasAudio := true,
    qualityLabel := some "1080p", itag := 37, contentLength := some "80000000" }

def c3Info : YtdlInfo := { title := some "video", formats := [c3Fmt] }

def c4DlpFmt : DlpFormat :=
  { format_id := some "22", vcodec := some "avc1", acodec := some "mp4a",
    format_note := some "720p", height := some 720 }

def c4Fallback : Except String (Option DlpJson) :=
  Except.ok (some { title := some "T", formats := some [c4DlpFmt] })

/-- A 720p rendition reporting 900 bytes. -/
def c6Fmt900 : RawFormat :=
  { container := some "mp4", hasVideo := true, hasAudio := true,
    qualityLabel := some "720p", itag := 10, contentLength := some "900" }

/-- A 720p rendition reporting 1000 bytes — numerically larger than 900, but
lexicographically smaller as a string. -/
def c6Fmt1000 : RawFormat :=
  { container := some "mp4", hasVideo := true, hasAudio := true,
    qualityLabel := some "720p", itag := 11, contentLength := some "1000" }

/-- A 360p rendition reporting no content length. -/
def c6FmtUnknown : RawFormat :=
  { container := some "mp4", hasVideo := true, hasAudio := true,
    qualityLabel := some "360p", itag := 12 }

/-- A 360p rendition reporting 100 bytes, listed after the unknown one. -/
def c6FmtKnown : RawFormat :=
  { container := some "mp4", hasVideo := true, hasAudio := true,
    qualityLabel := some "360p", itag := 13, contentLength := some "100" }

def c6Info : YtdlInfo :=
  { title := some "T"
    formats := [c6Fmt900, c6Fmt1000, c6FmtUnknown, c6FmtKnown] }

/-- Six distinct merged video renditions. -/
def c7Info : YtdlInfo :=
  { title := some "T"
    formats := [
      { container := some "mp4", hasVideo := true, hasAudio := true,
        qualityLabel := some "1080p", itag := 1 },
      { container := some "mp4", hasVideo := true, hasAudio := true,
        qualityLabel := some "720p", itag := 2 },
      { container := some "mp4", hasVideo := true, hasAudio := true,
        qualityLabel := some "480p", itag := 3 },
      { container := some "mp4", hasVideo := true, hasAudio := true,
        qualityLabel := some "360p", itag := 4 },
      { container := some "mp4", hasVideo := true, hasAudio := true,
        qualityLabel := some "240p", itag := 5 },
      { container := some "mp4", hasVideo := true, hasAudio := true,
        qualityLabel := some "144p", itag := 6 }] }

def c8Info : YtdlInfo :=
  { title := some "T"
    formats := [
      { container := some "mp4", hasVideo := true, hasAudio := true,
        qualityLabel := some "360p", itag := 18 },
      { container := some "mp4", hasVideo := true, hasAudio := true,
        qualityLabel := some "720p", itag := 22 },
      { container := some "webm", hasVideo := false, hasAudio := true,
        itag := 251, bitrate := some 160000 },
      { container := some "webm", hasVideo := false, hasAudio := true,
        itag := 250, bitrate := some 160000 },
      { container := some "webm", hasVideo := false, hasAudio := true,
        itag := 249, bitrate := some 64000 }] }

/-! ## Claim C1 — token consumption -/

/-- Claim C1 (counterexample): the claim that a selection token can be consumed at
most once, a second use returning NotFound, is false of the code.  The
callback handler of src/index.js parses the full selection payload out of the
callback data and starts an execution every time it arrives, and the
`activeDownloads` suppression of src/unnamed/part_002 re-admits the same key
as soon as the first run's `finally` block removes it: running the same key
twice in sequence executes twice, the second run is not refused. -/
theorem c1_counterexample :
    handleCallbackData "dl:video:payload:url" =
      CbAction.execute false "payload" "url" ∧
    (runDownloadOnce "1_u_720p" (runDownloadOnce "1_u_720p" []).2).1 = true := by
  constructor
  · rfl
  · rfl

/-- Claim C1 (amended): the program keeps no selection-token registry — callback
data carries the selection and triggers execution on every use.  The only
duplicate suppression, the `activeDownloads` set of src/unnamed/part_002,
refuses a second identical `userId_url_quality` request only while the first
is still in flight (never returning a NotFound value), and once the first
completes the same data starts a fresh execution. -/
theorem c1_amended (key : String) (active : List String) :
    (key ∈ active → beginDownload key active = none) ∧
    (∀ s2, beginDownload key active = some s2 → beginDownload key s2 = none) ∧
    (key ∉ active →
      (runDownloadOnce key active).1 = true ∧
      (runDownloadOnce key active).2 = active ∧
      (runDownloadOnce key (runDownloadOnce key active).2).1 = true) := by
  refine ⟨?_, ?_, ?_⟩
  · intro h
    simp [beginDownload, h]
  · intro s2 hs
    by_cases h : key ∈ active
    · simp [beginDownload, h] at hs
    · simp only [beginDownload, h, if_neg, if_false] at hs
      simp [beginDownload, h] at hs
      subst hs
      simp [beginDownload]
  · intro h
    have h1 : runDownloadOnce key active = (true, active) := by
      simp [runDownloadOnce, beginDownload, endDownload, h, List.erase_cons_head]
    refine ⟨by rw [h1], by rw [h1], ?_⟩
    rw [h1]
    simp [runDownloadOnce, beginDownload, endDownload, h, List.erase_cons_head]

theorem c1_amended_witness :
    (("k" : String) ∉ ([] : List String)) ∧
    ((runDownloadOnce "k" []).1 = true ∧ (runDownloadOnce "k" []).2 = [] ∧
      (runDownloadOnce "k" (runDownloadOnce "k" []).2).1 = true) :=
  ⟨by decide, (c1_amended "k" []).2.2 (by decide)⟩

/-! ## Claim C2 — pre-transfer size policy -/

/-- Claim C2 (counterexample): the claim that a video rendition with no content
length and no bitrate/duration signal is always rejected before transfer is
false of the code — `sendFormat` in src/index.js performs no pre-transfer
size check at all: the size-signal-free 720p rendition is fetched and handed
to the sink. -/
theorem c2_counterexample :
    c2Fmt.contentLength = none ∧ c2Fmt.bitrate = none ∧ c2Fmt.hasVideo = true ∧
    chooseFormat c2Info.formats 22 = some c2Fmt ∧
    sendFormatYtdl c2Info 22 false =
      (SfOutcome.delivered "video.mp4", [TransferEv.fetch, TransferEv.deliver]) := by
  refine ⟨rfl, rfl, rfl, by decide, by decide⟩

/-- Claim C2 (amended): the code performs no pre-transfer size check at all — a
video rendition with no size signal proceeds to transfer exactly like an
audio rendition, and the buffering variant (src/unnamed/part_001) starts its
download unconditionally, enforcing size only afterwards. -/
theorem c2_amended (info : YtdlInfo) (itag : Nat) (fmt : RawFormat)
    (dl : Option Nat) (hfind : chooseFormat info.formats itag = some fmt)
    (hcl : fmt.contentLength = none) (hbr : fmt.bitrate = none) :
    (∃ fn, sendFormatYtdl info itag false =
      (SfOutcome.delivered fn, [TransferEv.fetch, TransferEv.deliver])) ∧
    (∃ fn tr, sendFormatYtdl info itag true = (SfOutcome.delivered fn, tr)) ∧
    (downloadVideoP1 dl).2.head? = some TransferEv.fetch := by
  refine ⟨?_, ?_, ?_⟩
  · exact ⟨sanitizeFilename ((jsTruthyStr info.title).getD "video") ++ "." ++
      (jsTruthyStr fmt.container).getD "mp4", by simp [sendFormatYtdl, hfind]⟩
  · exact ⟨sanitizeFilename ((jsTruthyStr info.title).getD "video") ++ ".mp3",
      [TransferEv.fetch, TransferEv.transcode, TransferEv.deliver],
      by simp [sendFormatYtdl]⟩
  · cases dl with
    | none => rfl
    | some size =>
        simp only [downloadVideoP1]
        by_cases h : size > maxFileSize <;> simp [h]

theorem c2_amended_witness :
    (chooseFormat c2Info.formats 22 = some c2Fmt ∧ c2Fmt.contentLength = none ∧
      c2Fmt.bitrate = none) ∧
    ((∃ fn, sendFormatYtdl c2Info 22 false =
        (SfOutcome.delivered fn, [TransferEv.fetch, TransferEv.deliver])) ∧
      (∃ fn tr, sendFormatYtdl c2Info 22 true = (SfOutcome.delivered fn, tr)) ∧
      (downloadVideoP1 (some 1000)).2.head? = some TransferEv.fetch) :=
  ⟨⟨by decide, rfl, rfl⟩,
   c2_amended c2Info 22 c2Fmt (some 1000) (by decide) rfl rfl⟩

/-! ## Claim C3 — post-transfer size check before delivery -/

/-- Claim C3 (counterexample): the claim that every execution measures the artifact
and checks it against the 50MB ceiling before delivery is false of the code —
the streaming path of `sendFormat` in src/index.js hands the bytes to the
sink with no size check event at all, even for this rendition whose reported
length of 80,000,000 bytes exceeds the ceiling. -/
theorem c3_counterexample :
    clNum c3Fmt = 80000000 ∧ maxFileSize < 80000000 ∧
    sendFormatYtdl c3Info 37 false =
      (SfOutcome.delivered "video.mp4", [TransferEv.fetch, TransferEv.deliver]) := by
  refine ⟨by decide, by decide, by decide⟩

/-- Claim C3 (amended): only the buffering download paths enforce the ceiling — in
`downloadVideo` of src/unnamed/part_001 the measured-size check precedes
delivery, and a measured artifact over 50MB is deleted, never delivered; the
streaming path of src/index.js (`sendFormat`) performs no check at all. -/
theorem c3_amended (dl : Option Nat) (size : Nat) :
    ((downloadVideoP1 dl).1 = P1Outcome.uploaded →
      ∃ s, dl = some s ∧ s ≤ maxFileSize ∧
        (downloadVideoP1 dl).2 =
          [TransferEv.fetch, TransferEv.sizeCheck s, TransferEv.deliver]) ∧
    (size > maxFileSize →
      (downloadVideoP1 (some size)).1 = P1Outcome.tooLarge ∧
      TransferEv.deliver ∉ (downloadVideoP1 (some size)).2) := by
  constructor
  · intro h
    cases dl with
    | none => simp [downloadVideoP1] at h
    | some s =>
        by_cases hs : s > maxFileSize
        · simp [downloadVideoP1, hs] at h
        · exact ⟨s, rfl, not_lt.mp hs, by simp [downloadVideoP1, hs]⟩
  · intro h
    simp [downloadVideoP1, h]

theorem c3_amended_witness :
    ((downloadVideoP1 (some 1000)).1 = P1Outcome.uploaded ∧
      (60000000 : Nat) > maxFileSize) ∧
    ((∃ s, (some 1000 : Option Nat) = some s ∧ s ≤ maxFileSize ∧
        (downloadVideoP1 (some 1000)).2 =
          [TransferEv.fetch, TransferEv.sizeCheck s, TransferEv.deliver]) ∧
      ((downloadVideoP1 (some 60000000)).1 = P1Outcome.tooLarge ∧
        TransferEv.deliver ∉ (downloadVideoP1 (some 60000000)).2)) :=
  ⟨⟨by decide, by decide⟩,
   (c3_amended (some 1000) 60000000).1 (by decide),
   (c3_amended (some 1000) 60000000).2 (by decide)⟩

/-! ## Claim C4 — fallback invocation and backend kind -/

/-- Claim C4: when the primary backend fails with a message in the recoverable
class (`Status code: 410` / `extractor` / `signature`, the latter two
case-insensitively), the fallback backend is invoked exactly once, and if it
succeeds every resolution descriptor and the audio descriptor of the returned
catalog carry the fallback (`yt-dlp`) backend kind; a primary failure outside
that class — and a primary success — never invoke the fallback. -/
theorem c4_fallback_invocation (fallback : Except String (Option DlpJson))
    (msg : String) (info : YtdlInfo) :
    (isRecoverable msg = true →
      (getFormatsInfo (Except.error msg) fallback).2 = 1 ∧
      ∀ fi, (getFormatsInfo (Except.error msg) fallback).1 = Except.ok fi →
        (∀ r ∈ fi.resolutions, r.source = Source.ytDlp) ∧
        (∀ a, fi.audio = some a → a.source = Source.ytDlp)) ∧
    (isRecoverable msg = false →
      (getFormatsInfo (Except.error msg) fallback).2 = 0) ∧
    (getFormatsInfo (Except.ok info) fallback).2 = 0 := by
  refine ⟨?_, ?_, ?_⟩
  · intro hrec
    cases fallback with
    | error e => simp [getFormatsInfo, hrec]
    | ok j =>
        cases hb : buildFallback j with
        | error e => simp [getFormatsInfo, hrec, hb]
        | ok fi0 =>
            refine ⟨by simp [getFormatsInfo, hrec, hb], ?_⟩
            intro fi hfi
            simp only [getFormatsInfo, hrec, if_true, hb] at hfi
            have hfi' : fi0 = fi := by simpa using hfi
            subst hfi'
            cases j with
            | none => simp [buildFallback] at hb
            | some json =>
                cases hf : json.formats with
                | none => simp [buildFallback, hf] at hb
                | some fs =>
                    have hfi0 : fi0 = buildFallbackInfo json fs := by
                      simp [buildFallback, hf] at hb
                      exact hb.symm
                    subst hfi0
                    constructor
                    · intro r hr
                      simp only [buildFallbackInfo, List.mem_map] at hr
                      rcases hr with ⟨label, _, hr⟩
                      rw [← hr]
                    · intro a ha
                      simp only [buildFallbackInfo, Option.map_eq_some'] at ha
                      rcases ha with ⟨f, _, ha⟩
                      rw [← ha]
  · intro hrec
    simp [getFormatsInfo, hrec]
  · simp [getFormatsInfo]

theorem c4_fallback_invocation_witness :
    isRecoverable "Status code: 410" = true ∧
    (getFormatsInfo (Except.error "Status code: 410") c4Fallback).2 = 1 :=
  ⟨by decide,
   ((c4_fallback_invocation c4Fallback "Status code: 410" ⟨none, []⟩).1
     (by decide)).1⟩

/-! ## Claim C5 — original error surfaced when the fallback also fails -/

/-- Claim C5: when the primary backend fails recoverably and the fallback path then
also fails (either `ytdlExec` rejecting or the returned JSON carrying no
formats), `getFormatsInfo` rethrows the original primary error, not the
fallback's. -/
theorem c5_original_error (msg : String)
    (fallback : Except String (Option DlpJson))
    (hrec : isRecoverable msg = true)
    (hfail : ∀ j, fallback = Except.ok j → ∃ e, buildFallback j = Except.error e) :
    (getFormatsInfo (Except.error msg) fallback).1 = Except.error msg := by
  cases fallback with
  | error e => simp [getFormatsInfo, hrec]
  | ok j =>
      rcases hfail j rfl with ⟨e, he⟩
      simp [getFormatsInfo, hrec, he]

theorem c5_original_error_witness :
    isRecoverable "Could not find extractor" = true ∧
    (getFormatsInfo (Except.error "Could not find extractor")
      (Except.error "spawn yt-dlp ENOENT")).1 =
        Except.error "Could not find extractor" :=
  ⟨by decide,
   c5_original_error "Could not find extractor" (Except.error "spawn yt-dlp ENOENT")
     (by decide) (by intro j hj; simp at hj)⟩

/-! ## Claim C6 — dedup by label and the content-length tie-break -/

/-- Claim C6 (counterexample): the claim that the retained format of a label
group is always the one with the largest known content length is false of the
part_002 builder it cites — that variant compares the RAW `contentLength`
strings with JS `<`, which is lexicographic, so for the 720p group it keeps
the 900-byte format over the 1000-byte one, and for the 360p group it keeps
the length-less first format over the later 100-byte one (comparisons against
`undefined` are false).  The src/index.js builder, on the same input, keeps
the numerically largest as claimed — the two cited builders diverge. -/
theorem c6_counterexample :
    assocLookup "720p" (p2ResMap c6Info) = some c6Fmt900 ∧
    c6Fmt1000 ∈ (primaryVideoFormats c6Info).filter
      (fun f => decide (deriveLabel f = "720p")) ∧
    clNum c6Fmt900 = 900 ∧ clNum c6Fmt1000 = 1000 ∧
    assocLookup "360p" (p2ResMap c6Info) = some c6FmtUnknown ∧
    c6FmtUnknown.contentLength = none ∧
    c6FmtKnown ∈ (primaryVideoFormats c6Info).filter
      (fun f => decide (deriveLabel f = "360p")) ∧
    clNum c6FmtKnown = 100 ∧
    assocLookup "720p" (primaryResMap c6Info) = some ⟨11, 1000⟩ ∧
    assocLookup "360p" (primaryResMap c6Info) = some ⟨13, 100⟩ := by
  decide

/-- Claim C6 (amended): in both cited builders the catalog's video labels are
unique.  In the src/index.js builder the retained format of each label group
is the first one attaining the largest parsed content length — in particular
the first-encountered when no candidate reports a length.  The part_002
variant instead folds the group with the raw JS comparison
`resMap[q].contentLength < f.contentLength` (lexicographic on strings, false
when either field is absent): the retained format is the result of that
greedy fold — always a member of the group, and the first-encountered
whenever the first reports no length — but not in general the numerically
largest. -/
theorem c6_label_dedup_and_retention (info : YtdlInfo) (q : String) :
    ((buildPrimaryInfo info).resolutions.map (fun r => r.label)).Nodup ∧
    (p2SortedLabels info).Nodup ∧
    ((primaryVideoFormats info).filter (fun f => decide (deriveLabel f = q)) ≠ [] →
      ∃ l₁ f l₂,
        (primaryVideoFormats info).filter (fun f => decide (deriveLabel f = q)) =
          l₁ ++ f :: l₂ ∧
        assocLookup q (primaryResMap info) = some ⟨f.itag, clNum f⟩ ∧
        (∀ g ∈ l₁ ++ f :: l₂, clNum g ≤ clNum f) ∧
        (∀ g ∈ l₁, clNum g < clNum f)) ∧
    (∀ x xs,
      (primaryVideoFormats info).filter (fun f => decide (deriveLabel f = q)) =
        x :: xs →
      assocLookup q (p2ResMap info) = some (xs.foldl p2Keep x) ∧
      xs.foldl p2Keep x ∈ x :: xs ∧
      (x.contentLength = none → xs.foldl p2Keep x = x)) := by
  refine ⟨?_, ?_, ?_, ?_⟩
  · have hmap : (buildPrimaryInfo info).resolutions.map (fun r => r.label) =
        primarySortedLabels info := by
      simp only [buildPrimaryInfo, primaryResolutions, List.map_map]
      exact List.map_id _
    rw [hmap]
    exact ((sortDescBy_perm labelKey (primaryLabels info)).nodup_iff).mpr
      (nodup_assocKeys_primaryResMap info)
  · exact ((sortDescBy_perm labelKey (p2Labels info)).nodup_iff).mpr
      (nodup_assocKeys_p2ResMap info)
  · intro hne
    rcases firstMaxBy_spec clNum _ hne with ⟨l₁, f, l₂, hsplit, hfmb, hle, hlt⟩
    refine ⟨l₁, f, l₂, hsplit, ?_, ?_, ?_⟩
    · rw [assocLookup_primaryResMap, hfmb]
      rfl
    · rw [← hsplit]
      exact hle
    · exact hlt
  · intro x xs hsplit
    refine ⟨?_, foldl_p2Keep_mem xs x, fun hx => foldl_p2Keep_of_none x hx xs⟩
    have h := assocLookup_foldl_updateResMapP2 (primaryVideoFormats info) [] q
    rw [hsplit] at h
    simpa [p2ResMap, assocLookup] using h

theorem c6_label_dedup_and_retention_witness :
    ((primaryVideoFormats c6Info).filter
        (fun f => decide (deriveLabel f = "720p")) ≠ [] ∧
      (primaryVideoFormats c6Info).filter
        (fun f => decide (deriveLabel f = "720p")) = c6Fmt900 :: [c6Fmt1000]) ∧
    (∃ l₁ f l₂,
      (primaryVideoFormats c6Info).filter
        (fun f => decide (deriveLabel f = "720p")) = l₁ ++ f :: l₂ ∧
      assocLookup "720p" (primaryResMap c6Info) = some ⟨f.itag, clNum f⟩ ∧
      (∀ g ∈ l₁ ++ f :: l₂, clNum g ≤ clNum f) ∧
      (∀ g ∈ l₁, clNum g < clNum f)) ∧
    (assocLookup "720p" (p2ResMap c6Info) =
        some ([c6Fmt1000].foldl p2Keep c6Fmt900) ∧
      [c6Fmt1000].foldl p2Keep c6Fmt900 ∈ c6Fmt900 :: [c6Fmt1000] ∧
      (c6Fmt900.contentLength = none →
        [c6Fmt1000].foldl p2Keep c6Fmt900 = c6Fmt900)) :=
  ⟨⟨by decide, by decide⟩,
   (c6_label_dedup_and_retention c6Info "720p").2.2.1 (by decide),
   (c6_label_dedup_and_retention c6Info "720p").2.2.2 c6Fmt900 [c6Fmt1000]
     (by decide)⟩

/-! ## Claim C7 — label ordering and the bound on listed renditions -/

/-- Claim C7 (counterexample): the claim that a catalog lists at most 5 video
labels is false of the main builder — `getFormatsInfo` in src/index.js
applies no truncation, and this six-rendition format list yields six labels. -/
theorem c7_counterexample :
    (buildPrimaryInfo c7Info).resolutions.map (fun r => r.label) =
      ["1080p", "720p", "480p", "360p", "240p", "144p"] ∧
    (buildPrimaryInfo c7Info).resolutions.length = 6 := by
  constructor
  · decide
  · decide

/-- Claim C7 (amended): the catalog's video labels are ordered descending by the
numeric value parsed from the label's leading digits (non-numeric labels
parse to 0 and therefore sort last), ties kept in a stable order; but only
the `getQualityOptions` variant of src/unnamed/part_001 truncates to at most
5 entries — the builder in src/index.js does not truncate. -/
theorem c7_sort_and_cap (info : YtdlInfo) (fs : List DlpFormat) (k : Int) :
    ((buildPrimaryInfo info).resolutions.map (fun r => r.label)).Pairwise
      (descBy labelKey) ∧
    ((buildPrimaryInfo info).resolutions.map (fun r => r.label)).filter
        (fun l => decide (labelKey l = k)) =
      (primaryLabels info).filter (fun l => decide (labelKey l = k)) ∧
    (getQualityOptions fs).length ≤ 5 := by
  have hmap : (buildPrimaryInfo info).resolutions.map (fun r => r.label) =
      primarySortedLabels info := by
    simp only [buildPrimaryInfo, primaryResolutions, List.map_map]
    exact List.map_id _
  refine ⟨?_, ?_, ?_⟩
  · rw [hmap]
    exact sortDescBy_pairwise labelKey (primaryLabels info)
  · rw [hmap]
    exact sortDescBy_filter labelKey (primaryLabels info) k
  · show (List.map _ (List.take 5 _)).length ≤ 5
    rw [List.length_map, List.length_take]
    exact min_le_left _ _

/-! ## Claim C8 — catalog determinism -/

/-- Claim C8: catalog construction is deterministic — the JS sort contract
(comparator-consistent ordering plus ES2019 stability) pins down both the
ordered label sequence and the head of the sorted audio list uniquely, so any
two runs over the same raw format list agree on the label sequence and on the
chosen audio descriptor. -/
theorem c8_catalog_determinism (info : YtdlInfo) (s1 s2 : List String)
    (a1 a2 : List RawFormat)
    (hs1 : IsStableDescSortBy labelKey (primaryLabels info) s1)
    (hs2 : IsStableDescSortBy labelKey (primaryLabels info) s2)
    (ha1 : IsStableDescSortBy audioKey (primaryAudioFormats info) a1)
    (ha2 : IsStableDescSortBy audioKey (primaryAudioFormats info) a2) :
    s1 = s2 ∧ a1.head? = a2.head? := by
  have h1 := stable_sort_unique labelKey s1 s2 hs1.1 hs2.1
    (fun k => (hs1.2 k).trans (hs2.2 k).symm)
  have h2 := stable_sort_unique audioKey a1 a2 ha1.1 ha2.1
    (fun k => (ha1.2 k).trans (ha2.2 k).symm)
  exact ⟨h1, by rw [h2]⟩

theorem c8_catalog_determinism_witness :
    IsStableDescSortBy labelKey (primaryLabels c8Info)
      (sortDescBy labelKey (primaryLabels c8Info)) ∧
    IsStableDescSortBy audioKey (primaryAudioFormats c8Info)
      (sortDescBy audioKey (primaryAudioFormats c8Info)) ∧
    (sortDescBy labelKey (primaryLabels c8Info) =
        sortDescBy labelKey (primaryLabels c8Info) ∧
      (sortDescBy audioKey (primaryAudioFormats c8Info)).head? =
        (sortDescBy audioKey (primaryAudioFormats c8Info)).head?) :=
  ⟨sortDescBy_isStable labelKey (primaryLabels c8Info),
   sortDescBy_isStable audioKey (primaryAudioFormats c8Info),
   c8_catalog_determinism c8Info _ _ _ _
     (sortDescBy_isStable labelKey (primaryLabels c8Info))
     (sortDescBy_isStable labelKey (primaryLabels c8Info))
     (sortDescBy_isStable audioKey (primaryAudioFormats c8Info))
     (sortDescBy_isStable audioKey (primaryAudioFormats c8Info))⟩

/-! ## Claim C9 — filename sanitization -/

/-- Claim C9 (counterexample): the claim that sanitized filenames contain no
control characters is false of the code — the regex strips only
`\ / : * ? " < > |`, so a newline survives `sanitizeFilename` unchanged. -/
theorem c9_counterexample :
    sanitizeFilename "a\nb" = "a\nb" ∧
    '\n' ∈ (sanitizeFilename "a\nb").toList ∧
    isControlChar '\n' = true := by
  refine ⟨by decide, by decide, by decide⟩

/-- Claim C9 (amended): the sanitized filename contains none of the stripped
reserved characters — in particular no path separators `/` or `\` — and its
length is capped at 200; control characters, however, are not removed. -/
theorem c9_sanitize (name : String) :
    (∀ c ∈ (sanitizeFilename name).toList, c ∉ reservedChars) ∧
    (sanitizeFilename name).length ≤ 200 := by
  constructor
  · intro c hc
    have hc' : c ∈ (((jsTruthyStr (some name)).getD "file").toList.filter
        (fun c => decide (c ∉ reservedChars))).take 200 := hc
    have hmem := List.take_subset 200 _ hc'
    have := (List.mem_filter.mp hmem).2
    exact of_decide_eq_true this
  · show ((((jsTruthyStr (some name)).getD "file").toList.filter
        (fun c => decide (c ∉ reservedChars))).take 200).length ≤ 200
    rw [List.length_take]
    exact min_le_left _ _

/-! ## Claim C10 — cleanup is total and idempotent -/

/-- Claim C10: the temp-file cleanup helper never throws (the `existsSync` guard
keeps `unlinkSync` off the missing-file path), leaves no file at the path
afterwards, and running it twice has the same effect as running it once. -/
theorem c10_cleanup (p : String) (fs : List String) :
    ∃ fs2, cleanup p fs = Except.ok fs2 ∧ existsSync p fs2 = false ∧
      cleanup p fs2 = Except.ok fs2 := by
  by_cases h : p ∈ fs
  · refine ⟨fs.filter (fun q => decide (q ≠ p)), ?_, ?_, ?_⟩
    · simp [cleanup, unlinkSync, existsSync, h]
    · simp [existsSync, List.mem_filter]
    · simp [cleanup, existsSync, List.mem_filter]
  · exact ⟨fs, by simp [cleanup, existsSync, h], by simp [existsSync, h],
      by simp [cleanup, existsSync, h]⟩

end TeleYtBot
